import Mathlib

/-!
Verification of the music-store franchise model (`loja_de_musica.py`).

The Python object graph is embedded shallowly: objects have identity, so
employees, stores and instruments are named by numeric ids and the whole
graph is a `State` mapping ids to records.  Python attribute assignment
becomes functional update of the `State`; a method that can raise
(`list.remove` raising `ValueError`, the spec's NotFound) is translated to
`Except (Err × State) _` whose error value carries the state at the moment
of the raise, so that absence of partial mutation is expressible.  The
read-only queries perform no attribute assignment in the source, so their
method-form translation returns the unchanged state alongside the result.
Python `list.remove`/`in` compare objects by identity here (no `__eq__` is
defined in the source), which id equality models exactly.
-/

namespace LojaDeMusica

abbrev FuncId := Nat
abbrev LojaId := Nat
abbrev InstrId := Nat

/-- Instrument variants (`Baixo`, `Guitarra`, `Violao` in the source), each
with the base attributes `marca`, `modelo`, `preco`, `num_cordas` plus the
variant-specific field.  Prices are modelled as rationals; no claim computes
with them. -/
inductive Instrumento where
  | baixo (marca modelo : String) (preco : Rat) (num_cordas : Nat) (fretless : Bool)
  | guitarra (marca modelo : String) (preco : Rat) (num_cordas : Nat) (tipo_captador : String)
  | violao (marca modelo : String) (preco : Rat) (num_cordas : Nat) (tipo_corpo : String)
  deriving DecidableEq

/-- Employee record (`Funcionario.__init__`); `loja_atual` is the back
reference to the store currently employing them, if any. -/
structure Funcionario where
  nome_completo : String
  cpf : String
  salario : Rat
  cargo : String
  loja_atual : Option LojaId
  deriving DecidableEq

/-- Store record (`Loja.__init__`): ordered employee and inventory
collections plus the optional `loja_mais_proxima` aggregation reference. -/
structure Loja where
  localizacao : String
  funcionarios : List FuncId
  estoque : List InstrId
  loja_mais_proxima : Option LojaId
  deriving DecidableEq

/-- The whole object graph: every id maps to an object record. -/
structure State where
  funcs : FuncId → Funcionario
  lojas : LojaId → Loja
  instrs : InstrId → Instrumento

/-- Assignment to an attribute of employee `fid`. -/
def State.updFunc (s : State) (fid : FuncId) (f : Funcionario) : State :=
  { s with funcs := fun i => if i = fid then f else s.funcs i }

/-- Assignment to an attribute of store `lid`. -/
def State.updLoja (s : State) (lid : LojaId) (l : Loja) : State :=
  { s with lojas := fun i => if i = lid then l else s.lojas i }

/-- The only error kind of the model: NotFound, i.e. the `ValueError` that
Python's `list.remove` raises on an absent element. -/
inductive Err where
  | notFound
  deriving DecidableEq

/-- Python's `list.remove` (first occurrence by equality), `none` meaning
the `ValueError` raise. -/
def listRemove {α : Type} [DecidableEq α] : List α → α → Option (List α)
  | [], _ => none
  | x :: xs, a => if x = a then some xs else Option.map (fun ys => x :: ys) (listRemove xs a)

/-- `Funcionario.__init__`: `loja_atual` starts at `None`. -/
def Funcionario.nova (nome_completo cpf : String) (salario : Rat) (cargo : String) :
    Funcionario :=
  ⟨nome_completo, cpf, salario, cargo, none⟩

/-- `Loja.__init__`: empty collections, no nearest store. -/
def Loja.nova (localizacao : String) : Loja :=
  ⟨localizacao, [], [], none⟩

/-- `Loja.adicionar_funcionario`: append to `funcionarios`, then set the
employee's `loja_atual` to this store.  No membership guard. -/
def Loja.adicionar_funcionario (s : State) (lid : LojaId) (fid : FuncId) : State :=
  let s1 := s.updLoja lid
    { s.lojas lid with funcionarios := (s.lojas lid).funcionarios ++ [fid] }
  s1.updFunc fid { s1.funcs fid with loja_atual := some lid }

/-- `Loja.remover_funcionario`: `self.funcionarios.remove(funcionario)` (which
raises before anything is assigned when the employee is absent), then
`funcionario.loja_atual = None`. -/
def Loja.remover_funcionario (s : State) (lid : LojaId) (fid : FuncId) :
    Except (Err × State) State :=
  match listRemove (s.lojas lid).funcionarios fid with
  | none => Except.error (Err.notFound, s)
  | some fs =>
    let s1 := s.updLoja lid { s.lojas lid with funcionarios := fs }
    Except.ok (s1.updFunc fid { s1.funcs fid with loja_atual := none })

/-- `Loja.adicionar_instrumento`: append to `estoque`. -/
def Loja.adicionar_instrumento (s : State) (lid : LojaId) (iid : InstrId) : State :=
  s.updLoja lid { s.lojas lid with estoque := (s.lojas lid).estoque ++ [iid] }

/-- `Loja.remover_instrumento`: `self.estoque.remove(instrumento)`. -/
def Loja.remover_instrumento (s : State) (lid : LojaId) (iid : InstrId) :
    Except (Err × State) State :=
  match listRemove (s.lojas lid).estoque iid with
  | none => Except.error (Err.notFound, s)
  | some es => Except.ok (s.updLoja lid { s.lojas lid with estoque := es })

/-- `Funcionario.mudar_loja`: detach from the current store if any (an
exception from `remover_funcionario` propagates), then
`nova_loja.adicionar_funcionario(self)`, then `self.loja_atual = nova_loja`
(already true after the add; kept faithfully). -/
def Funcionario.mudar_loja (s : State) (fid : FuncId) (nova : LojaId) :
    Except (Err × State) State :=
  match (s.funcs fid).loja_atual with
  | some old =>
    match Loja.remover_funcionario s old fid with
    | Except.error e => Except.error e
    | Except.ok s1 =>
      let s2 := Loja.adicionar_funcionario s1 nova fid
      Except.ok (s2.updFunc fid { s2.funcs fid with loja_atual := some nova })
  | none =>
    let s2 := Loja.adicionar_funcionario s nova fid
    Except.ok (s2.updFunc fid { s2.funcs fid with loja_atual := some nova })

/-- The state an observer holds after calling `remover_funcionario`: the ok
state on success, the state carried by the raise otherwise. -/
def remState (s : State) (lid : LojaId) (fid : FuncId) : State :=
  match Loja.remover_funcionario s lid fid with
  | Except.ok s' => s'
  | Except.error (_, s') => s'

/-- The state an observer holds after calling `mudar_loja`. -/
def mudState (s : State) (fid : FuncId) (nova : LojaId) : State :=
  match Funcionario.mudar_loja s fid nova with
  | Except.ok s' => s'
  | Except.error (_, s') => s'

/-- Python dict `d[key] += 1` on an insertion-ordered dict rendered as an
association list (a no-op on an absent key; every use site has the key
present). -/
def dictIncr : List (String × Nat) → String → List (String × Nat)
  | [], _ => []
  | (k, v) :: d, key => if k = key then (k, v + 1) :: d else (k, v) :: dictIncr d key

/-- One step of the `consultar_instrumentos` loop: the `isinstance` chain
picking which counter of the local dict to bump. -/
def contaTipo (s : State) (d : List (String × Nat)) (iid : InstrId) : List (String × Nat) :=
  match s.instrs iid with
  | Instrumento.baixo _ _ _ _ _ => dictIncr d "Baixo"
  | Instrumento.guitarra _ _ _ _ _ => dictIncr d "Guitarra"
  | Instrumento.violao _ _ _ _ _ => dictIncr d "Violão"

/-- `Loja.consultar_instrumentos`: the dict starts with the three fixed
labels at 0 and the loop bumps one per inventory item. -/
def Loja.consultar_instrumentos (s : State) (lid : LojaId) : List (String × Nat) :=
  (s.lojas lid).estoque.foldl (contaTipo s)
    [("Baixo", 0), ("Guitarra", 0), ("Violão", 0)]

/-- One step of the `consultar_funcionarios_por_cargo` loop: bump the role's
counter when the key is present, else insert it at the end with count 1. -/
def dictBump (d : List (String × Nat)) (k : String) : List (String × Nat) :=
  if k ∈ d.map Prod.fst then dictIncr d k else d ++ [(k, 1)]

/-- `Loja.consultar_funcionarios_por_cargo`: dict built by scanning the
employee collection in order. -/
def Loja.consultar_funcionarios_por_cargo (s : State) (lid : LojaId) : List (String × Nat) :=
  (s.lojas lid).funcionarios.foldl (fun d fid => dictBump d (s.funcs fid).cargo) []

/-- Method-form of `consultar_instrumentos`: the body assigns no attribute,
so the post-state it hands back is the pre-state. -/
def Loja.consultar_instrumentos_run (s : State) (lid : LojaId) :
    Except (Err × State) (List (String × Nat) × State) :=
  Except.ok (Loja.consultar_instrumentos s lid, s)

/-- Method-form of `consultar_funcionarios_por_cargo`. -/
def Loja.consultar_funcionarios_por_cargo_run (s : State) (lid : LojaId) :
    Except (Err × State) (List (String × Nat) × State) :=
  Except.ok (Loja.consultar_funcionarios_por_cargo s lid, s)

/-- The state an observer holds after the `consultar_instrumentos` call. -/
def queryStateI (s : State) (lid : LojaId) : State :=
  match Loja.consultar_instrumentos_run s lid with
  | Except.ok (_, s') => s'
  | Except.error (_, s') => s'

/-- The state an observer holds after the `consultar_funcionarios_por_cargo`
call. -/
def queryStateF (s : State) (lid : LojaId) : State :=
  match Loja.consultar_funcionarios_por_cargo_run s lid with
  | Except.ok (_, s') => s'
  | Except.error (_, s') => s'

/-- Variant discriminant tests, used to state the counting query's result. -/
def Instrumento.ehBaixo : Instrumento → Bool
  | Instrumento.baixo _ _ _ _ _ => true
  | _ => false

def Instrumento.ehGuitarra : Instrumento → Bool
  | Instrumento.guitarra _ _ _ _ _ => true
  | _ => false

def Instrumento.ehViolao : Instrumento → Bool
  | Instrumento.violao _ _ _ _ _ => true
  | _ => false

/-- First-encounter-order accumulation of keys, the order Python dict
insertion produces while scanning a list of role strings. -/
def firstKeys (acc : List String) : List String → List String
  | [] => acc
  | k :: ks => firstKeys (if k ∈ acc then acc else acc ++ [k]) ks

/-- Total of a dict's counts. -/
def dictTotal (d : List (String × Nat)) : Nat := (d.map Prod.snd).sum

/-- The spec's bidirectional-consistency invariant: an employee's
`loja_atual` is exactly the store whose collection holds them, and they
appear in a collection at most once (stated through occurrence counts). -/
def Inv (s : State) : Prop :=
  ∀ fid : FuncId, ∀ lid : LojaId,
    (((s.funcs fid).loja_atual = some lid) → (s.lojas lid).funcionarios.count fid = 1)
    ∧ (((s.funcs fid).loja_atual ≠ some lid) → (s.lojas lid).funcionarios.count fid = 0)

/-- A concrete consistent graph, after the bootstrap of `main()`: employee 0
works at store 0; employee ids other than 0 are unemployed; store ids other
than 0 have empty collections. -/
def cexS1 : State where
  funcs := fun i =>
    if i = 0 then ⟨"Pinho", "123.456.789-00", 2500, "Vendedor", some 0⟩
    else ⟨"Padre Kelmon", "987.654.321-00", 3000, "Gerente", none⟩
  lojas := fun l =>
    if l = 0 then ⟨"São Paulo", [0], [], some 1⟩
    else ⟨"Rio de Janeiro", [], [], some 0⟩
  instrs := fun _ => Instrumento.baixo "Fender" "Jazz Bass" 5000 4 false

/-- A graph where employee 0 was added twice to store 0 (the unguarded
duplicate add the spec documents as possible). -/
def cexS2 : State where
  funcs := fun i =>
    if i = 0 then ⟨"Pinho", "123.456.789-00", 2500, "Vendedor", some 0⟩
    else ⟨"Tokar", "456.789.123-00", 2000, "Caixa", none⟩
  lojas := fun l =>
    if l = 0 then ⟨"São Paulo", [0, 0], [], none⟩
    else ⟨"Xique-Xique", [], [], none⟩
  instrs := fun _ => Instrumento.guitarra "Gibson" "Les Paul" 7000 6 "Humbucker"

/-! ## State-update accessor lemmas -/

@[simp] theorem State.funcs_updFunc (s : State) (fid : FuncId) (f : Funcionario) (i : FuncId) :
    (s.updFunc fid f).funcs i = if i = fid then f else s.funcs i := rfl

@[simp] theorem State.lojas_updFunc (s : State) (fid : FuncId) (f : Funcionario) :
    (s.updFunc fid f).lojas = s.lojas := rfl

@[simp] theorem State.instrs_updFunc (s : State) (fid : FuncId) (f : Funcionario) :
    (s.updFunc fid f).instrs = s.instrs := rfl

@[simp] theorem State.funcs_updLoja (s : State) (lid : LojaId) (l : Loja) :
    (s.updLoja lid l).funcs = s.funcs := rfl

@[simp] theorem State.lojas_updLoja (s : State) (lid : LojaId) (l : Loja) (i : LojaId) :
    (s.updLoja lid l).lojas i = if i = lid then l else s.lojas i := rfl

@[simp] theorem State.instrs_updLoja (s : State) (lid : LojaId) (l : Loja) :
    (s.updLoja lid l).instrs = s.instrs := rfl

theorem adicionar_funcionario_funcs (s : State) (lid : LojaId) (fid g : FuncId) :
    (Loja.adicionar_funcionario s lid fid).funcs g
      = if g = fid then { s.funcs fid with loja_atual := some lid } else s.funcs g := rfl

theorem adicionar_funcionario_lojas (s : State) (lid : LojaId) (fid : FuncId) (m : LojaId) :
    (Loja.adicionar_funcionario s lid fid).lojas m
      = if m = lid then
          { s.lojas lid with funcionarios := (s.lojas lid).funcionarios ++ [fid] }
        else s.lojas m := rfl

/-- Overwriting an employee slot with the record already there changes
nothing. -/
theorem State.updFunc_self (s : State) (fid : FuncId) (f : Funcionario)
    (h : f = s.funcs fid) : s.updFunc fid f = s := by
  cases s with
  | mk fu lo ins =>
    simp only [State.updFunc]
    congr 1
    funext i
    by_cases hi : i = fid
    · simp [hi, h]
    · simp [hi]

/-- Re-assigning `loja_atual` to the value it already has is the identity. -/
theorem Funcionario.set_loja_atual_self (f : Funcionario) (o : Option LojaId)
    (h : f.loja_atual = o) : { f with loja_atual := o } = f := by
  cases f
  cases h
  rfl

/-! ## `listRemove` lemmas -/

theorem listRemove_none_iff {α : Type} [DecidableEq α] (l : List α) (a : α) :
    listRemove l a = none ↔ a ∉ l := by
  induction l with
  | nil => simp [listRemove]
  | cons x xs ih =>
    by_cases hx : x = a
    · subst hx
      simp [listRemove]
    · simp [listRemove, hx, Option.map_eq_none', ih, Ne.symm hx]

theorem listRemove_of_mem {α : Type} [DecidableEq α] (l : List α) (a : α) (h : a ∈ l) :
    ∃ l', listRemove l a = some l' := by
  cases e : listRemove l a with
  | none => exact absurd h ((listRemove_none_iff l a).mp e)
  | some l' => exact ⟨l', rfl⟩

theorem listRemove_count_self {α : Type} [DecidableEq α] (l l' : List α) (a : α)
    (h : listRemove l a = some l') : l.count a = l'.count a + 1 := by
  induction l generalizing l' with
  | nil => simp [listRemove] at h
  | cons x xs ih =>
    by_cases hx : x = a
    · subst hx
      simp [listRemove] at h
      subst h
      simp [List.count_cons]
    · simp [listRemove, hx, Option.map_eq_some'] at h
      obtain ⟨ys, hys, rfl⟩ := h
      simp [List.count_cons, Ne.symm hx, ih ys hys]

theorem listRemove_count_ne {α : Type} [DecidableEq α] (l l' : List α) (a b : α)
    (h : listRemove l a = some l') (hba : b ≠ a) : l'.count b = l.count b := by
  induction l generalizing l' with
  | nil => simp [listRemove] at h
  | cons x xs ih =>
    by_cases hx : x = a
    · subst hx
      simp [listRemove] at h
      subst h
      simp [List.count_cons, hba]
    · simp [listRemove, hx, Option.map_eq_some'] at h
      obtain ⟨ys, hys, rfl⟩ := h
      simp [List.count_cons, ih ys hys]

/-! ## Dict lemmas for the two counting queries -/

theorem dictIncr_baixo (a b c : Nat) :
    dictIncr [("Baixo", a), ("Guitarra", b), ("Violão", c)] "Baixo"
      = [("Baixo", a + 1), ("Guitarra", b), ("Violão", c)] := rfl

theorem dictIncr_guitarra (a b c : Nat) :
    dictIncr [("Baixo", a), ("Guitarra", b), ("Violão", c)] "Guitarra"
      = [("Baixo", a), ("Guitarra", b + 1), ("Violão", c)] := rfl

theorem dictIncr_violao (a b c : Nat) :
    dictIncr [("Baixo", a), ("Guitarra", b), ("Violão", c)] "Violão"
      = [("Baixo", a), ("Guitarra", b), ("Violão", c + 1)] := rfl

/-- The instrument-counting loop, run from arbitrary counter values. -/
theorem consultar_instrumentos_fold (s : State) (es : List InstrId) :
    ∀ a b c : Nat,
    es.foldl (contaTipo s) [("Baixo", a), ("Guitarra", b), ("Violão", c)]
      = [("Baixo", a + es.countP (fun i => (s.instrs i).ehBaixo)),
         ("Guitarra", b + es.countP (fun i => (s.instrs i).ehGuitarra)),
         ("Violão", c + es.countP (fun i => (s.instrs i).ehViolao))] := by
  induction es with
  | nil => intro a b c; simp
  | cons i es ih =>
    intro a b c
    cases h : s.instrs i with
    | baixo m mo p n f =>
      simp only [List.foldl_cons, contaTipo, h, dictIncr_baixo, ih, List.countP_cons,
        Instrumento.ehBaixo, Instrumento.ehGuitarra, Instrumento.ehViolao]
      simp
      omega
    | guitarra m mo p n t =>
      simp only [List.foldl_cons, contaTipo, h, dictIncr_guitarra, ih, List.countP_cons,
        Instrumento.ehBaixo, Instrumento.ehGuitarra, Instrumento.ehViolao]
      simp
      omega
    | violao m mo p n t =>
      simp only [List.foldl_cons, contaTipo, h, dictIncr_violao, ih, List.countP_cons,
        Instrumento.ehBaixo, Instrumento.ehGuitarra, Instrumento.ehViolao]
      simp
      omega

@[simp] theorem ehBaixo_baixo (m mo : String) (p : Rat) (n : Nat) (f : Bool) :
    (Instrumento.baixo m mo p n f).ehBaixo = true := rfl

@[simp] theorem ehBaixo_guitarra (m mo : String) (p : Rat) (n : Nat) (t : String) :
    (Instrumento.guitarra m mo p n t).ehBaixo = false := rfl

@[simp] theorem ehBaixo_violao (m mo : String) (p : Rat) (n : Nat) (t : String) :
    (Instrumento.violao m mo p n t).ehBaixo = false := rfl

@[simp] theorem ehGuitarra_baixo (m mo : String) (p : Rat) (n : Nat) (f : Bool) :
    (Instrumento.baixo m mo p n f).ehGuitarra = false := rfl

@[simp] theorem ehGuitarra_guitarra (m mo : String) (p : Rat) (n : Nat) (t : String) :
    (Instrumento.guitarra m mo p n t).ehGuitarra = true := rfl

@[simp] theorem ehGuitarra_violao (m mo : String) (p : Rat) (n : Nat) (t : String) :
    (Instrumento.violao m mo p n t).ehGuitarra = false := rfl

@[simp] theorem ehViolao_baixo (m mo : String) (p : Rat) (n : Nat) (f : Bool) :
    (Instrumento.baixo m mo p n f).ehViolao = false := rfl

@[simp] theorem ehViolao_guitarra (m mo : String) (p : Rat) (n : Nat) (t : String) :
    (Instrumento.guitarra m mo p n t).ehViolao = false := rfl

@[simp] theorem ehViolao_violao (m mo : String) (p : Rat) (n : Nat) (t : String) :
    (Instrumento.violao m mo p n t).ehViolao = true := rfl

/-- Every instrument is of exactly one of the three variants, so the three
per-variant counts partition the inventory. -/
theorem countP_tipos (s : State) (es : List InstrId) :
    es.countP (fun i => (s.instrs i).ehBaixo) + es.countP (fun i => (s.instrs i).ehGuitarra)
      + es.countP (fun i => (s.instrs i).ehViolao) = es.length := by
  induction es with
  | nil => rfl
  | cons i es ih =>
    cases h : s.instrs i <;>
      simp only [List.countP_cons, h, ehBaixo_baixo, ehBaixo_guitarra, ehBaixo_violao,
        ehGuitarra_baixo, ehGuitarra_guitarra, ehGuitarra_violao, ehViolao_baixo,
        ehViolao_guitarra, ehViolao_violao, List.length_cons, if_true, if_false] <;>
      simp <;> omega

theorem map_fst_dictIncr (d : List (String × Nat)) (k : String) :
    (dictIncr d k).map Prod.fst = d.map Prod.fst := by
  induction d with
  | nil => rfl
  | cons p d ih =>
    obtain ⟨k0, v⟩ := p
    by_cases h : k0 = k <;> simp [dictIncr, h, ih]

theorem map_fst_dictBump (d : List (String × Nat)) (k : String) :
    (dictBump d k).map Prod.fst
      = if k ∈ d.map Prod.fst then d.map Prod.fst else d.map Prod.fst ++ [k] := by
  unfold dictBump
  split <;> simp_all [map_fst_dictIncr]

theorem foldl_dictBump_keys (ks : List String) :
    ∀ d : List (String × Nat),
    ((ks.foldl dictBump d).map Prod.fst) = firstKeys (d.map Prod.fst) ks := by
  induction ks with
  | nil => intro d; rfl
  | cons k ks ih =>
    intro d
    simp only [List.foldl_cons, firstKeys, ih, map_fst_dictBump]

theorem dictTotal_dictIncr (d : List (String × Nat)) (k : String)
    (h : k ∈ d.map Prod.fst) : dictTotal (dictIncr d k) = dictTotal d + 1 := by
  induction d with
  | nil => simp at h
  | cons p d ih =>
    obtain ⟨k0, v⟩ := p
    by_cases hk : k0 = k
    · simp [dictIncr, hk, dictTotal]
      omega
    · simp only [List.map_cons, List.mem_cons] at h
      rcases h with h | h
      · exact absurd h.symm hk
      · have := ih h
        simp only [dictIncr, if_neg hk, dictTotal, List.map_cons, List.sum_cons] at this ⊢
        omega

theorem dictTotal_dictBump (d : List (String × Nat)) (k : String) :
    dictTotal (dictBump d k) = dictTotal d + 1 := by
  unfold dictBump
  split
  · exact dictTotal_dictIncr d k (by assumption)
  · simp [dictTotal]

theorem foldl_dictBump_total (ks : List String) :
    ∀ d : List (String × Nat), dictTotal (ks.foldl dictBump d) = dictTotal d + ks.length := by
  induction ks with
  | nil => intro d; simp
  | cons k ks ih =>
    intro d
    simp only [List.foldl_cons, ih, dictTotal_dictBump, List.length_cons]
    omega

theorem pos_dictIncr (d : List (String × Nat)) (k : String)
    (h : ∀ p ∈ d, 0 < p.2) : ∀ p ∈ dictIncr d k, 0 < p.2 := by
  induction d with
  | nil => simp [dictIncr]
  | cons q d ih =>
    obtain ⟨k0, v⟩ := q
    by_cases hk : k0 = k
    · simp only [dictIncr, if_pos hk]
      intro p hp
      rcases List.mem_cons.mp hp with h1 | h2
      · subst h1; simp
      · exact h p (List.mem_cons_of_mem _ h2)
    · simp only [dictIncr, if_neg hk]
      intro p hp
      rcases List.mem_cons.mp hp with h1 | h2
      · subst h1
        exact h _ (List.mem_cons_self _ _)
      · exact ih (fun q hq => h q (List.mem_cons_of_mem _ hq)) p h2

theorem pos_dictBump (d : List (String × Nat)) (k : String)
    (h : ∀ p ∈ d, 0 < p.2) : ∀ p ∈ dictBump d k, 0 < p.2 := by
  unfold dictBump
  split
  · exact pos_dictIncr d k h
  · intro p hp
    rcases List.mem_append.mp hp with h1 | h2
    · exact h p h1
    · simp at h2
      subst h2
      simp

theorem foldl_dictBump_pos (ks : List String) :
    ∀ d : List (String × Nat), (∀ p ∈ d, 0 < p.2) →
      ∀ p ∈ ks.foldl dictBump d, 0 < p.2 := by
  induction ks with
  | nil => intro d h; exact h
  | cons k ks ih =>
    intro d h
    exact ih (dictBump d k) (pos_dictBump d k h)

theorem mem_firstKeys (ks : List String) :
    ∀ (acc : List String) (k : String), k ∈ firstKeys acc ks ↔ k ∈ acc ∨ k ∈ ks := by
  induction ks with
  | nil => simp [firstKeys]
  | cons k0 ks ih =>
    intro acc k
    by_cases h0 : k0 ∈ acc
    · simp only [firstKeys, if_pos h0, ih]
      constructor
      · rintro (h | h)
        · exact Or.inl h
        · exact Or.inr (List.mem_cons_of_mem _ h)
      · rintro (h | h)
        · exact Or.inl h
        · rcases List.mem_cons.mp h with rfl | h
          · exact Or.inl h0
          · exact Or.inr h
    · simp only [firstKeys, if_neg h0, ih, List.mem_append, List.mem_singleton,
        List.mem_cons]
      tauto

theorem firstKeys_nodup (ks : List String) :
    ∀ acc : List String, acc.Nodup → (firstKeys acc ks).Nodup := by
  induction ks with
  | nil => intro acc h; exact h
  | cons k ks ih =>
    intro acc h
    by_cases hk : k ∈ acc
    · simpa [firstKeys, hk] using ih acc h
    · simp only [firstKeys, if_neg hk]
      refine ih _ ?_
      simp [List.nodup_append, h, hk]

@[simp] theorem Loja.funcionarios_set (l : Loja) (fs : List FuncId) :
    ({ l with funcionarios := fs }).funcionarios = fs := rfl

/-! ## Invariant machinery -/

/-- Adding an employee with no current store keeps the graph consistent. -/
theorem inv_adicionar (s : State) (lid : LojaId) (fid : FuncId)
    (hInv : Inv s) (hnone : (s.funcs fid).loja_atual = none) :
    Inv (Loja.adicionar_funcionario s lid fid) := by
  have hzero : ∀ m, (s.lojas m).funcionarios.count fid = 0 := by
    intro m
    exact (hInv fid m).2 (by simp [hnone])
  intro g m
  by_cases hg : g = fid
  · subst hg
    constructor
    · intro hmem
      rw [adicionar_funcionario_funcs, if_pos rfl] at hmem
      simp only [Option.some.injEq] at hmem
      subst hmem
      rw [adicionar_funcionario_lojas, if_pos rfl]
      simp [List.count_append, hzero]
    · intro hne
      rw [adicionar_funcionario_funcs, if_pos rfl] at hne
      simp only [ne_eq, Option.some.injEq] at hne
      rw [adicionar_funcionario_lojas, if_neg (fun hm => hne hm.symm)]
      exact hzero m
  · constructor
    · intro hmem
      rw [adicionar_funcionario_funcs, if_neg hg] at hmem
      have h1 := (hInv g m).1 hmem
      rw [adicionar_funcionario_lojas]
      by_cases hm : m = lid
      · subst hm
        rw [if_pos rfl]
        simpa [List.count_append, List.count_singleton', hg] using h1
      · rw [if_neg hm]
        exact h1
    · intro hne
      rw [adicionar_funcionario_funcs, if_neg hg] at hne
      have h0 := (hInv g m).2 hne
      rw [adicionar_funcionario_lojas]
      by_cases hm : m = lid
      · subst hm
        rw [if_pos rfl]
        simpa [List.count_append, List.count_singleton', hg] using h0
      · rw [if_neg hm]
        exact h0

/-- Removing an employee keeps the graph consistent whether the call
succeeds or raises (the raise leaves the state untouched). -/
theorem inv_remover (s : State) (lid : LojaId) (fid : FuncId) (hInv : Inv s) :
    Inv (remState s lid fid) := by
  cases e : listRemove (s.lojas lid).funcionarios fid with
  | none =>
    have hr : Loja.remover_funcionario s lid fid = Except.error (Err.notFound, s) := by
      simp [Loja.remover_funcionario, e]
    have hs : remState s lid fid = s := by
      simp [remState, hr]
    rw [hs]
    exact hInv
  | some fs =>
    have hr : Loja.remover_funcionario s lid fid
        = Except.ok ((s.updLoja lid { s.lojas lid with funcionarios := fs }).updFunc fid
            { s.funcs fid with loja_atual := none }) := by
      simp [Loja.remover_funcionario, e]
    have hst : remState s lid fid
        = (s.updLoja lid { s.lojas lid with funcionarios := fs }).updFunc fid
            { s.funcs fid with loja_atual := none } := by
      simp [remState, hr]
    have hmem : fid ∈ (s.lojas lid).funcionarios := by
      by_contra hn
      have h0 := (listRemove_none_iff ((s.lojas lid).funcionarios) fid).mpr hn
      rw [h0] at e
      exact Option.noConfusion e
    have hla : (s.funcs fid).loja_atual = some lid := by
      by_contra hn
      have h0 := (hInv fid lid).2 hn
      rw [List.count_eq_zero] at h0
      exact h0 hmem
    have h1 : (s.lojas lid).funcionarios.count fid = 1 := (hInv fid lid).1 hla
    have hself := listRemove_count_self _ _ _ e
    have hfs0 : fs.count fid = 0 := by omega
    rw [hst]
    intro g m
    by_cases hg : g = fid
    · subst hg
      constructor
      · intro hmem2
        simp at hmem2
      · intro _
        by_cases hm : m = lid
        · subst hm
          simp [hfs0]
        · simp only [State.lojas_updFunc, State.lojas_updLoja, if_neg hm,
            State.funcs_updFunc]
          refine (hInv g m).2 ?_
          rw [hla]
          simp only [ne_eq, Option.some.injEq]
          exact fun hlm => hm hlm.symm
    · constructor
      · intro hmem2
        simp only [State.funcs_updFunc, if_neg hg] at hmem2
        have h1' := (hInv g m).1 hmem2
        by_cases hm : m = lid
        · subst hm
          simp only [State.lojas_updFunc, State.lojas_updLoja, if_pos rfl]
          exact (listRemove_count_ne _ _ _ _ e hg).trans h1'
        · simp only [State.lojas_updFunc, State.lojas_updLoja, if_neg hm]
          exact h1'
      · intro hne
        simp only [State.funcs_updFunc, if_neg hg] at hne
        have h0' := (hInv g m).2 hne
        by_cases hm : m = lid
        · subst hm
          simp only [State.lojas_updFunc, State.lojas_updLoja, if_pos rfl]
          exact (listRemove_count_ne _ _ _ _ e hg).trans h0'
        · simp only [State.lojas_updFunc, State.lojas_updLoja, if_neg hm]
          exact h0'

/-- The trailing `self.loja_atual = nova_loja` of `mudar_loja` re-assigns
the value `adicionar_funcionario` just set, so it collapses away. -/
theorem mudar_loja_none (s : State) (fid : FuncId) (nova : LojaId)
    (h : (s.funcs fid).loja_atual = none) :
    Funcionario.mudar_loja s fid nova = Except.ok (Loja.adicionar_funcionario s nova fid) := by
  have h2 : ((Loja.adicionar_funcionario s nova fid).funcs fid).loja_atual = some nova := by
    rw [adicionar_funcionario_funcs, if_pos rfl]
  simp only [Funcionario.mudar_loja, h]
  rw [Funcionario.set_loja_atual_self _ _ h2]
  rw [State.updFunc_self _ _ _ rfl]

/-- With a current store holding the employee, `mudar_loja` is literally the
remove-then-add composite. -/
theorem mudar_loja_some (s : State) (fid : FuncId) (nova old : LojaId)
    (h : (s.funcs fid).loja_atual = some old)
    (hm : fid ∈ (s.lojas old).funcionarios) :
    Loja.remover_funcionario s old fid = Except.ok (remState s old fid)
    ∧ Funcionario.mudar_loja s fid nova
        = Except.ok (Loja.adicionar_funcionario (remState s old fid) nova fid) := by
  obtain ⟨fs, hfs⟩ := listRemove_of_mem _ _ hm
  have hr : Loja.remover_funcionario s old fid
      = Except.ok ((s.updLoja old { s.lojas old with funcionarios := fs }).updFunc fid
          { s.funcs fid with loja_atual := none }) := by
    simp [Loja.remover_funcionario, hfs]
  have hst : remState s old fid
      = (s.updLoja old { s.lojas old with funcionarios := fs }).updFunc fid
          { s.funcs fid with loja_atual := none } := by
    simp [remState, hr]
  refine ⟨by rw [hr, hst], ?_⟩
  have h2 : ((Loja.adicionar_funcionario (remState s old fid) nova fid).funcs fid).loja_atual
      = some nova := by
    rw [adicionar_funcionario_funcs, if_pos rfl]
  simp only [Funcionario.mudar_loja, h, hr, ← hst]
  rw [Funcionario.set_loja_atual_self _ _ h2]
  rw [State.updFunc_self _ _ _ rfl]

/-- After a successful removal the removed employee's back reference is
cleared. -/
theorem remState_loja_atual_none (s : State) (lid : LojaId) (fid : FuncId)
    (hm : fid ∈ (s.lojas lid).funcionarios) :
    ((remState s lid fid).funcs fid).loja_atual = none := by
  obtain ⟨fs, hfs⟩ := listRemove_of_mem _ _ hm
  simp [remState, Loja.remover_funcionario, hfs]

/-- Transferring keeps the graph consistent whatever the employee's current
situation is. -/
theorem inv_mudar (s : State) (fid : FuncId) (nova : LojaId) (hInv : Inv s) :
    Inv (mudState s fid nova) := by
  cases h : (s.funcs fid).loja_atual with
  | none =>
    have hs : mudState s fid nova = Loja.adicionar_funcionario s nova fid := by
      simp [mudState, mudar_loja_none s fid nova h]
    rw [hs]
    exact inv_adicionar s nova fid hInv h
  | some old =>
    have h1 : (s.lojas old).funcionarios.count fid = 1 := (hInv fid old).1 h
    have hmem : fid ∈ (s.lojas old).funcionarios := by
      by_contra hn
      rw [List.count_eq_zero.mpr hn] at h1
      exact Nat.noConfusion h1
    obtain ⟨hrem, hmud⟩ := mudar_loja_some s fid nova old h hmem
    have hs : mudState s fid nova
        = Loja.adicionar_funcionario (remState s old fid) nova fid := by
      simp [mudState, hmud]
    rw [hs]
    exact inv_adicionar (remState s old fid) nova fid (inv_remover s old fid hInv)
      (remState_loja_atual_none s old fid hmem)

/-- The bootstrap graph `cexS1` is consistent. -/
theorem inv_cexS1 : Inv cexS1 := by
  intro fid lid
  by_cases hf : fid = 0
  · subst hf
    have hla : (cexS1.funcs 0).loja_atual = some 0 := by decide
    by_cases hl : lid = 0
    · subst hl
      constructor
      · intro _
        decide
      · intro hne
        exact absurd hla hne
    · constructor
      · intro h
        rw [hla] at h
        simp only [Option.some.injEq] at h
        exact absurd h.symm hl
      · intro _
        simp [cexS1, hl]
  · have hla : (cexS1.funcs fid).loja_atual = none := by
      simp [cexS1, hf]
    constructor
    · intro h
      rw [hla] at h
      exact Option.noConfusion h
    · intro _
      by_cases hl : lid = 0
      · subst hl
        simp [cexS1, List.count_singleton', hf]
      · simp [cexS1, hl]

/-! ## Claim theorems -/

/-- C1 (amended): from any graph satisfying the bidirectional-consistency
invariant, `remover_funcionario` (whether it succeeds or raises) and
`mudar_loja` preserve the invariant, and `adicionar_funcionario` preserves
it when the added employee has no current store.  (As originally claimed —
with `adicionar_funcionario` on an employee of a different store — the
property is false; see the counterexample.) -/
theorem inv_preserved (s : State) (lid nova : LojaId) (fid gid : FuncId)
    (hInv : Inv s) (hnone : (s.funcs fid).loja_atual = none) :
    Inv (Loja.adicionar_funcionario s lid fid)
    ∧ Inv (remState s lid gid)
    ∧ Inv (mudState s gid nova) :=
  ⟨inv_adicionar s lid fid hInv hnone, inv_remover s lid gid hInv,
    inv_mudar s gid nova hInv⟩

/-- C1 witness: the preservation theorem applied to the concrete consistent
graph `cexS1`. -/
theorem inv_preserved_witness :
    Inv cexS1 ∧ (cexS1.funcs 1).loja_atual = none
    ∧ (Inv (Loja.adicionar_funcionario cexS1 1 1) ∧ Inv (remState cexS1 1 0)
       ∧ Inv (mudState cexS1 0 1)) :=
  ⟨inv_cexS1, by decide, inv_preserved cexS1 1 1 1 0 inv_cexS1 (by decide)⟩

/-- C1 counterexample: `cexS1` is consistent, yet after store 1 adds
employee 0 (who belongs to store 0) the employee's `loja_atual` is store 1
while store 0's collection still contains them — the claimed invariant does
not survive a cross-store `adicionar_funcionario`. -/
theorem adicionar_cross_store_breaks_inv :
    Inv cexS1
    ∧ ((Loja.adicionar_funcionario cexS1 1 0).funcs 0).loja_atual = some 1
    ∧ (0 : FuncId) ∈ ((Loja.adicionar_funcionario cexS1 1 0).lojas 0).funcionarios :=
  ⟨inv_cexS1, by decide, by decide⟩

/-- C2 (amended): removing a present employee clears their `loja_atual` and
removes exactly one occurrence; the collection no longer contains the
employee precisely when they occurred exactly once before the call.  (As
originally claimed — absence even after duplicate adds — the property is
false; see the counterexample.) -/
theorem remover_funcionario_spec (s : State) (lid : LojaId) (fid : FuncId)
    (h : fid ∈ (s.lojas lid).funcionarios) :
    Loja.remover_funcionario s lid fid = Except.ok (remState s lid fid)
    ∧ ((remState s lid fid).funcs fid).loja_atual = none
    ∧ ((remState s lid fid).lojas lid).funcionarios.count fid + 1
        = (s.lojas lid).funcionarios.count fid
    ∧ (fid ∉ ((remState s lid fid).lojas lid).funcionarios
        ↔ (s.lojas lid).funcionarios.count fid = 1) := by
  obtain ⟨fs, hfs⟩ := listRemove_of_mem _ _ h
  have hr : Loja.remover_funcionario s lid fid
      = Except.ok ((s.updLoja lid { s.lojas lid with funcionarios := fs }).updFunc fid
          { s.funcs fid with loja_atual := none }) := by
    simp [Loja.remover_funcionario, hfs]
  have hst : remState s lid fid
      = (s.updLoja lid { s.lojas lid with funcionarios := fs }).updFunc fid
          { s.funcs fid with loja_atual := none } := by
    simp [remState, hr]
  have hcnt := listRemove_count_self _ _ _ hfs
  refine ⟨by rw [hr, hst], ?_, ?_, ?_⟩
  · rw [hst]
    simp
  · rw [hst]
    simp only [State.lojas_updFunc, State.lojas_updLoja, if_pos rfl]
    exact hcnt.symm
  · rw [hst]
    simp only [State.lojas_updFunc, State.lojas_updLoja, if_pos rfl]
    show fid ∉ fs ↔ _
    rw [← List.count_eq_zero]
    omega

/-- C2 witness: the removal theorem applied to the duplicate graph `cexS2`
(employee 0 is in store 0 twice). -/
theorem remover_funcionario_spec_witness :
    (0 : FuncId) ∈ (cexS2.lojas 0).funcionarios
    ∧ (Loja.remover_funcionario cexS2 0 0 = Except.ok (remState cexS2 0 0)
       ∧ ((remState cexS2 0 0).funcs 0).loja_atual = none
       ∧ ((remState cexS2 0 0).lojas 0).funcionarios.count 0 + 1
           = (cexS2.lojas 0).funcionarios.count 0
       ∧ ((0 : FuncId) ∉ ((remState cexS2 0 0).lojas 0).funcionarios
           ↔ (cexS2.lojas 0).funcionarios.count 0 = 1)) :=
  ⟨by decide, remover_funcionario_spec cexS2 0 0 (by decide)⟩

/-- C2 counterexample: in `cexS2` employee 0 is in store 0's collection
twice; `remover_funcionario` succeeds yet the collection still contains the
employee, contradicting the claim's "no longer contains e" for
duplicated adds. -/
theorem remover_duplicate_keeps_member :
    (0 : FuncId) ∈ (cexS2.lojas 0).funcionarios
    ∧ Loja.remover_funcionario cexS2 0 0 = Except.ok (remState cexS2 0 0)
    ∧ (0 : FuncId) ∈ ((remState cexS2 0 0).lojas 0).funcionarios :=
  ⟨by decide, rfl, by decide⟩

/-- C3: removing an absent employee or instrument raises NotFound, and the
error carries exactly the pre-call state — no collection and no back
reference was touched (the raise happens before any assignment). -/
theorem remover_absente_spec (s : State) (lid : LojaId) (fid : FuncId) (iid : InstrId)
    (hf : fid ∉ (s.lojas lid).funcionarios) (hi : iid ∉ (s.lojas lid).estoque) :
    Loja.remover_funcionario s lid fid = Except.error (Err.notFound, s)
    ∧ Loja.remover_instrumento s lid iid = Except.error (Err.notFound, s) := by
  constructor
  · simp [Loja.remover_funcionario, (listRemove_none_iff _ _).mpr hf]
  · simp [Loja.remover_instrumento, (listRemove_none_iff _ _).mpr hi]

/-- C3 witness: employee 5 and instrument 0 are absent from store 0 of
`cexS1`. -/
theorem remover_absente_spec_witness :
    (5 : FuncId) ∉ (cexS1.lojas 0).funcionarios
    ∧ (0 : InstrId) ∉ (cexS1.lojas 0).estoque
    ∧ (Loja.remover_funcionario cexS1 0 5 = Except.error (Err.notFound, cexS1)
       ∧ Loja.remover_instrumento cexS1 0 0 = Except.error (Err.notFound, cexS1)) :=
  ⟨by decide, by decide, remover_absente_spec cexS1 0 5 0 (by decide) (by decide)⟩

/-- C4 (amended): when the employee is in exactly their current store's
collection, exactly once, and the destination differs from the origin,
`mudar_loja` equals remove-then-add and ends with the employee in exactly
the destination store's collection, back reference included.  (As
originally claimed — for every destination, including the origin itself —
the "absent from oldStore" part is false; see the counterexample.) -/
theorem mudar_loja_spec (s : State) (fid : FuncId) (old nova : LojaId)
    (h1 : (s.funcs fid).loja_atual = some old)
    (h2 : (s.lojas old).funcionarios.count fid = 1)
    (h3 : nova ≠ old)
    (h4 : ∀ l : LojaId, l ≠ old → fid ∉ (s.lojas l).funcionarios) :
    (∀ l : LojaId, fid ∈ (s.lojas l).funcionarios ↔ l = old)
    ∧ Loja.remover_funcionario s old fid = Except.ok (remState s old fid)
    ∧ Funcionario.mudar_loja s fid nova = Except.ok (mudState s fid nova)
    ∧ mudState s fid nova = Loja.adicionar_funcionario (remState s old fid) nova fid
    ∧ ((mudState s fid nova).funcs fid).loja_atual = some nova
    ∧ fid ∉ ((mudState s fid nova).lojas old).funcionarios
    ∧ (∀ l : LojaId, fid ∈ ((mudState s fid nova).lojas l).funcionarios ↔ l = nova) := by
  have hmem : fid ∈ (s.lojas old).funcionarios := by
    by_contra hn
    have h0 := List.count_eq_zero.mpr hn
    omega
  obtain ⟨hrem, hmud⟩ := mudar_loja_some s fid nova old h1 hmem
  have hms : mudState s fid nova
      = Loja.adicionar_funcionario (remState s old fid) nova fid := by
    simp [mudState, hmud]
  obtain ⟨fs, hfs⟩ := listRemove_of_mem _ _ hmem
  have hstr : remState s old fid
      = (s.updLoja old { s.lojas old with funcionarios := fs }).updFunc fid
          { s.funcs fid with loja_atual := none } := by
    simp [remState, Loja.remover_funcionario, hfs]
  have hcnt := listRemove_count_self _ _ _ hfs
  have hfs0 : fs.count fid = 0 := by omega
  have hfsnot : fid ∉ fs := List.count_eq_zero.mp hfs0
  refine ⟨?_, hrem, by rw [hmud, hms], hms, ?_, ?_, ?_⟩
  · intro l
    constructor
    · intro hl
      by_contra hne
      exact h4 l hne hl
    · rintro rfl
      exact hmem
  · simp [hms, adicionar_funcionario_funcs]
  · rw [hms, adicionar_funcionario_lojas, if_neg (fun hh => h3 hh.symm)]
    rw [hstr]
    simp only [State.lojas_updFunc, State.lojas_updLoja, if_pos rfl]
    exact hfsnot
  · intro l
    by_cases hl : l = nova
    · subst hl
      rw [hms, adicionar_funcionario_lojas, if_pos rfl]
      simp [List.mem_append]
    · rw [hms, adicionar_funcionario_lojas, if_neg hl]
      rw [hstr]
      simp only [State.lojas_updFunc, State.lojas_updLoja]
      by_cases hlo : l = old
      · subst hlo
        simp only [if_pos rfl]
        exact iff_of_false hfsnot hl
      · simp only [if_neg hlo]
        exact iff_of_false (h4 l hlo) hl

/-- C4 witness: transferring employee 0 from store 0 to store 1 in the
consistent graph `cexS1`. -/
theorem mudar_loja_spec_witness :
    (cexS1.funcs 0).loja_atual = some 0
    ∧ (cexS1.lojas 0).funcionarios.count 0 = 1
    ∧ ((∀ l : LojaId, (0 : FuncId) ∈ (cexS1.lojas l).funcionarios ↔ l = 0)
       ∧ Loja.remover_funcionario cexS1 0 0 = Except.ok (remState cexS1 0 0)
       ∧ Funcionario.mudar_loja cexS1 0 1 = Except.ok (mudState cexS1 0 1)
       ∧ mudState cexS1 0 1 = Loja.adicionar_funcionario (remState cexS1 0 0) 1 0
       ∧ ((mudState cexS1 0 1).funcs 0).loja_atual = some 1
       ∧ (0 : FuncId) ∉ ((mudState cexS1 0 1).lojas 0).funcionarios
       ∧ (∀ l : LojaId, (0 : FuncId) ∈ ((mudState cexS1 0 1).lojas l).funcionarios ↔ l = 1)) :=
  ⟨by decide, by decide,
    mudar_loja_spec cexS1 0 0 1 (by decide) (by decide) (by decide)
      (fun l hl => by simp [cexS1, hl])⟩

/-- C4 counterexample: transferring employee 0 of `cexS1` to the store they
already work at (store 0 as both origin and destination) succeeds and
leaves them present in the origin's collection, contradicting the claimed
"absent from oldStore's collection". -/
theorem mudar_same_store_keeps_member :
    (cexS1.funcs 0).loja_atual = some 0
    ∧ (0 : FuncId) ∈ (cexS1.lojas 0).funcionarios
    ∧ Funcionario.mudar_loja cexS1 0 0 = Except.ok (mudState cexS1 0 0)
    ∧ (0 : FuncId) ∈ ((mudState cexS1 0 0).lojas 0).funcionarios :=
  ⟨by decide, by decide, rfl, by decide⟩

/-- C5: `consultar_instrumentos` always returns exactly the three fixed
labels, in their fixed insertion order, each mapped to the count of
inventory items of that variant (hence 0 for an unstocked variant), and the
three counts sum to the inventory size. -/
theorem consultar_instrumentos_spec (s : State) (lid : LojaId) :
    Loja.consultar_instrumentos s lid
      = [("Baixo", (s.lojas lid).estoque.countP (fun i => (s.instrs i).ehBaixo)),
         ("Guitarra", (s.lojas lid).estoque.countP (fun i => (s.instrs i).ehGuitarra)),
         ("Violão", (s.lojas lid).estoque.countP (fun i => (s.instrs i).ehViolao))]
    ∧ (s.lojas lid).estoque.countP (fun i => (s.instrs i).ehBaixo)
        + (s.lojas lid).estoque.countP (fun i => (s.instrs i).ehGuitarra)
        + (s.lojas lid).estoque.countP (fun i => (s.instrs i).ehViolao)
      = (s.lojas lid).estoque.length := by
  constructor
  · have h := consultar_instrumentos_fold s (s.lojas lid).estoque 0 0 0
    simpa [Loja.consultar_instrumentos] using h
  · exact countP_tipos s _

/-- C6: `consultar_funcionarios_por_cargo` returns the distinct role
strings of the current employees in first-encounter order (no duplicates,
no zero entries), with counts summing to the size of the employee
collection. -/
theorem consultar_funcionarios_spec (s : State) (lid : LojaId) :
    (Loja.consultar_funcionarios_por_cargo s lid).map Prod.fst
        = firstKeys [] (((s.lojas lid).funcionarios).map (fun fid => (s.funcs fid).cargo))
    ∧ ((Loja.consultar_funcionarios_por_cargo s lid).map Prod.fst).Nodup
    ∧ dictTotal (Loja.consultar_funcionarios_por_cargo s lid)
        = (s.lojas lid).funcionarios.length
    ∧ (∀ p ∈ Loja.consultar_funcionarios_por_cargo s lid, 0 < p.2)
    ∧ (∀ k : String, k ∈ (Loja.consultar_funcionarios_por_cargo s lid).map Prod.fst
        ↔ k ∈ ((s.lojas lid).funcionarios).map (fun fid => (s.funcs fid).cargo)) := by
  have hq : Loja.consultar_funcionarios_por_cargo s lid
      = (((s.lojas lid).funcionarios).map (fun fid => (s.funcs fid).cargo)).foldl
          dictBump [] := by
    rw [Loja.consultar_funcionarios_por_cargo, List.foldl_map]
  refine ⟨?_, ?_, ?_, ?_, ?_⟩
  · rw [hq]
    exact foldl_dictBump_keys _ []
  · rw [hq, foldl_dictBump_keys _ []]
    exact firstKeys_nodup _ [] List.nodup_nil
  · rw [hq, foldl_dictBump_total]
    simp [dictTotal]
  · intro p hp
    rw [hq] at hp
    exact foldl_dictBump_pos _ [] (by simp) p hp
  · intro k
    rw [hq, foldl_dictBump_keys _ [], mem_firstKeys]
    simp

/-- C6 witness: the query theorem at the concrete graph `cexS2`. -/
theorem consultar_funcionarios_spec_witness :
    (Loja.consultar_funcionarios_por_cargo cexS2 0).map Prod.fst
        = firstKeys [] (((cexS2.lojas 0).funcionarios).map (fun fid => (cexS2.funcs fid).cargo))
    ∧ ((Loja.consultar_funcionarios_por_cargo cexS2 0).map Prod.fst).Nodup
    ∧ dictTotal (Loja.consultar_funcionarios_por_cargo cexS2 0)
        = (cexS2.lojas 0).funcionarios.length
    ∧ (∀ p ∈ Loja.consultar_funcionarios_por_cargo cexS2 0, 0 < p.2)
    ∧ (∀ k : String, k ∈ (Loja.consultar_funcionarios_por_cargo cexS2 0).map Prod.fst
        ↔ k ∈ ((cexS2.lojas 0).funcionarios).map (fun fid => (cexS2.funcs fid).cargo)) :=
  consultar_funcionarios_spec cexS2 0

/-- C7: `adicionar_funcionario` unconditionally sets the employee's
`loja_atual` to the store and appends them, so their occurrence count in
the store's collection grows by exactly one — whatever their prior
membership anywhere. -/
theorem adicionar_funcionario_spec (s : State) (lid : LojaId) (fid : FuncId) :
    ((Loja.adicionar_funcionario s lid fid).funcs fid).loja_atual = some lid
    ∧ ((Loja.adicionar_funcionario s lid fid).lojas lid).funcionarios.count fid
        = (s.lojas lid).funcionarios.count fid + 1 := by
  constructor
  · simp [adicionar_funcionario_funcs]
  · rw [adicionar_funcionario_lojas, if_pos rfl]
    simp [List.count_append]

/-- C8: the constructors and the two read-only queries are total: each
constructor yields exactly the documented initial record, and the queries,
in their method form, always return `ok` (there is no raise in their
bodies). -/
theorem total_construtores_consultas :
    ∀ (s : State) (lid : LojaId) (nome cpf cargo loc : String) (sal : Rat)
      (marca modelo : String) (preco : Rat) (nc : Nat) (fl : Bool) (cap corpo : String),
    Loja.consultar_instrumentos_run s lid
        = Except.ok (Loja.consultar_instrumentos s lid, s)
    ∧ Loja.consultar_funcionarios_por_cargo_run s lid
        = Except.ok (Loja.consultar_funcionarios_por_cargo s lid, s)
    ∧ Funcionario.nova nome cpf sal cargo
        = { nome_completo := nome, cpf := cpf, salario := sal, cargo := cargo,
            loja_atual := none }
    ∧ Loja.nova loc
        = { localizacao := loc, funcionarios := [], estoque := [],
            loja_mais_proxima := none }
    ∧ (Instrumento.baixo marca modelo preco nc fl).ehBaixo = true
    ∧ (Instrumento.guitarra marca modelo preco nc cap).ehGuitarra = true
    ∧ (Instrumento.violao marca modelo preco nc corpo).ehViolao = true :=
  fun _ _ _ _ _ _ _ _ _ _ _ _ _ _ => ⟨rfl, rfl, rfl, rfl, rfl, rfl, rfl⟩

/-- C9: the two queries leave the whole object graph as it was — the
post-state of their method form is the pre-state, component by component —
and a second call on that post-state returns the same mapping. -/
theorem consultas_frame_spec (s : State) (lid : LojaId) :
    queryStateI s lid = s
    ∧ queryStateF s lid = s
    ∧ ((queryStateI s lid).lojas lid).estoque = (s.lojas lid).estoque
    ∧ ((queryStateI s lid).lojas lid).funcionarios = (s.lojas lid).funcionarios
    ∧ ((queryStateI s lid).lojas lid).localizacao = (s.lojas lid).localizacao
    ∧ ((queryStateI s lid).lojas lid).loja_mais_proxima = (s.lojas lid).loja_mais_proxima
    ∧ (∀ f : FuncId, ((queryStateF s lid).funcs f).loja_atual = (s.funcs f).loja_atual)
    ∧ Loja.consultar_instrumentos (queryStateI s lid) lid = Loja.consultar_instrumentos s lid
    ∧ Loja.consultar_funcionarios_por_cargo (queryStateF s lid) lid
        = Loja.consultar_funcionarios_por_cargo s lid :=
  ⟨rfl, rfl, rfl, rfl, rfl, rfl, fun _ => rfl, rfl, rfl⟩

/-- C10: transferring an employee whose `loja_atual` is `None` never
raises: it is exactly the destination's `adicionar_funcionario` — append
(one more occurrence), back reference set — and every other store is left
untouched. -/
theorem mudar_loja_sem_loja_spec (s : State) (fid : FuncId) (nova : LojaId)
    (h : (s.funcs fid).loja_atual = none) :
    Funcionario.mudar_loja s fid nova = Except.ok (mudState s fid nova)
    ∧ mudState s fid nova = Loja.adicionar_funcionario s nova fid
    ∧ ((mudState s fid nova).funcs fid).loja_atual = some nova
    ∧ ((mudState s fid nova).lojas nova).funcionarios.count fid
        = (s.lojas nova).funcionarios.count fid + 1
    ∧ (∀ l : LojaId, l ≠ nova → (mudState s fid nova).lojas l = s.lojas l) := by
  have hm := mudar_loja_none s fid nova h
  have hms : mudState s fid nova = Loja.adicionar_funcionario s nova fid := by
    simp [mudState, hm]
  refine ⟨by rw [hm, hms], hms, ?_, ?_, ?_⟩
  · simp [hms, adicionar_funcionario_funcs]
  · rw [hms, adicionar_funcionario_lojas, if_pos rfl]
    simp [List.count_append]
  · intro l hl
    rw [hms, adicionar_funcionario_lojas, if_neg hl]

/-- C10 witness: employee 1 of `cexS1` (unemployed) joins store 0. -/
theorem mudar_loja_sem_loja_spec_witness :
    (cexS1.funcs 1).loja_atual = none
    ∧ (Funcionario.mudar_loja cexS1 1 0 = Except.ok (mudState cexS1 1 0)
       ∧ mudState cexS1 1 0 = Loja.adicionar_funcionario cexS1 0 1
       ∧ ((mudState cexS1 1 0).funcs 1).loja_atual = some 0
       ∧ ((mudState cexS1 1 0).lojas 0).funcionarios.count 1
           = (cexS1.lojas 0).funcionarios.count 1 + 1
       ∧ (∀ l : LojaId, l ≠ 0 → (mudState cexS1 1 0).lojas l = cexS1.lojas l)) :=
  ⟨by decide, mudar_loja_sem_loja_spec cexS1 1 0 (by decide)⟩

end LojaDeMusica
